import Mathlib

/-!
Shallow embedding of src/merger.py, a utility that concatenates yearly
CSV files matching the glob pattern pfx_20*.csv into pfx.csv, ordered by
the four-digit year embedded in each filename.

Modelling conventions:
* Filenames are `List Char`; file contents are `Option (List Row)` where
  `none` models a file that cannot be opened and `some rows` the parsed
  CSV rows as produced by the csv.reader tokenizer. A `Row` is a list of
  field strings; filenames are assumed newline-free, so the regex end
  anchor is modelled as end of string.
* `extract_year` returns `WithTop Nat`: `⊤` models the Python sentinel
  float infinity, which compares greater than every integer year.
* The stable Python list.sort is modelled by `List.insertionSort`; a
  stable sort with a total preorder is uniquely determined by its input,
  so insertion sort is an exact model of the stable sort at this level.
* `run` models `main`: argument checking, glob discovery (a filter over
  the directory listing, whose order models glob enumeration order),
  sorting, merging, progress messages, exit code, and the effect on the
  output file pfx.csv.
-/

namespace Merger

/-- A CSV row, as produced by the csv.reader tokenizer. -/
abbrev Row := List String

/-- Value of a decimal digit character. -/
def digitVal (c : Char) : Nat := c.toNat - 48

/-- The trailing underscore-four-digits-dot-csv pattern: given the part of
the filename after the prefix, return the year value when the last nine
characters are an underscore, four digits and `.csv`. The regex
`.*?_(\d\x7b4\x7d)\.csv` with the end anchor matches exactly when the tail has
this shape, and the captured group is those last four digits. -/
def yearSuffix? (rest : List Char) : Option Nat :=
  match rest.drop (rest.length - 9) with
  | [u, d1, d2, d3, d4, dot, c1, c2, c3] =>
    if u = '_' ∧ dot = '.' ∧ c1 = 'c' ∧ c2 = 's' ∧ c3 = 'v' ∧
        d1.isDigit = true ∧ d2.isDigit = true ∧ d3.isDigit = true ∧
        d4.isDigit = true then
      some (digitVal d1 * 1000 + digitVal d2 * 100 + digitVal d3 * 10 + digitVal d4)
    else none
  | _ => none

/-- Model of `extract_year` (src/merger.py lines 7-10): `re.match` of the
escaped prefix, a non-greedy wildcard, an underscore, four captured digits
and `.csv`, anchored at both ends; the captured group as a number on a
match, the infinite sentinel `⊤` otherwise. Because the pattern is anchored
at the end, the underscore-digits-csv part always occupies the last nine
characters, so the wildcard is modelled by position arithmetic. -/
def extract_year (filename pfx : List Char) : WithTop Nat :=
  if pfx <+: filename then
    match yearSuffix? (filename.drop pfx.length) with
    | some y => (y : WithTop Nat)
    | none => ⊤
  else ⊤

/-- A file in the working directory: its name, and `some rows` when it can
be opened and tokenizes to `rows`, or `none` when opening it fails. -/
structure InputFile where
  name : List Char
  content : Option (List Row)
deriving DecidableEq

/-- A file on which `next(reader)` succeeds: it opens and has a first row. -/
def readable (f : InputFile) : Bool :=
  match f.content with
  | some (_ :: _) => true
  | _ => false

/-- The data rows of a file: everything after the header row. -/
def dataRows (f : InputFile) : List Row :=
  match f.content with
  | some (_ :: t) => t
  | _ => []

/-- The header row of the first file of a list, as a zero-or-one-element
list of rows. -/
def headerList : List InputFile → List Row
  | [] => []
  | f :: _ =>
    match f.content with
    | some (h :: _) => [h]
    | _ => []

/-- The merge loop of `main` (src/merger.py lines 31-42). State: the rows
already written to the output file and whether the writer exists (the
header has been written). Reading a file that cannot be opened, or calling
`next(reader)` on an empty file, raises: the loop stops with the rows
written so far and a false flag. -/
def mergeStep : List Row → Bool → List InputFile → List Row × Bool
  | out, _, [] => (out, true)
  | out, hw, f :: rest =>
    match f.content with
    | none => (out, false)
    | some [] => (out, false)
    | some (header :: rows) =>
      mergeStep (if hw then out ++ rows else out ++ header :: rows) true rest

/-- Run the merge loop from the initial state: nothing written, no writer. -/
def mergeFiles (files : List InputFile) : List Row × Bool :=
  mergeStep [] false files

/-- The sort key of src/merger.py line 25. -/
def fileKey (pfx : List Char) (f : InputFile) : WithTop Nat :=
  extract_year f.name pfx

/-- Model of `files.sort(key=...)` (src/merger.py line 25): a stable sort
ascending by extracted year. -/
def sortFiles (pfx : List Char) (files : List InputFile) : List InputFile :=
  files.insertionSort (fun a b => fileKey pfx a ≤ fileKey pfx b)

/-- Model of fnmatch semantics of the glob pattern pfx_20*.csv: the name is
the prefix, then `_20`, then anything, then `.csv`. -/
def matchesGlob (pfx name : List Char) : Bool :=
  decide ((pfx ++ "_20".toList) <+: name) &&
    decide (".csv".toList <:+ name.drop (pfx.length + 3))

/-- Model of `glob.glob(f"pfx_20*.csv")` (src/merger.py line 18): the
matching entries of the directory listing, in listing order. -/
def discover (pfx : List Char) (dir : List InputFile) : List InputFile :=
  dir.filter (fun f => matchesGlob pfx f.name)

/-- The output filename pfx.csv (src/merger.py line 27). -/
def outputName (pfx : List Char) : List Char :=
  pfx ++ ".csv".toList

/-- The usage message printed on a wrong argument count. -/
def usageMsg : String := "Usage: python merge_csv.py <prefix>"

/-- The message printed when discovery finds no files. -/
def noMatchMsg (pfx : List Char) : String :=
  "No matching files found for prefix: " ++ String.mk pfx

/-- One progress line per processed file. -/
def procLine (f : InputFile) : String :=
  "Processing " ++ String.mk f.name

/-- The files whose progress line is printed: every file up to and
including the first one that faults. -/
def processedFiles : List InputFile → List InputFile
  | [] => []
  | f :: rest => if readable f then f :: processedFiles rest else [f]

/-- The observable outcome of one invocation: process exit code, lines
printed to standard output, the content of the output file pfx.csv
(`none` when it is never opened, `some rows` when it is opened for
writing and `rows` end up in it), and whether an exception propagated. -/
structure RunOutcome where
  exitCode : Nat
  stdout : List String
  outputFile : Option (List Row)
  faulted : Bool
deriving DecidableEq

/-- Model of `main` (src/merger.py lines 12-44) run on an argument vector
and a directory listing. -/
def run (argv : List String) (dir : List InputFile) : RunOutcome :=
  if argv.length ≠ 2 then ⟨1, [usageMsg], none, false⟩
  else
    let pfx := (argv.getD 1 "").toList
    let files := discover pfx dir
    if files.isEmpty then ⟨1, [noMatchMsg pfx], none, false⟩
    else
      let sorted := sortFiles pfx files
      let res := mergeFiles sorted
      ⟨if res.2 then 0 else 1,
       (processedFiles sorted).map procLine ++
         (if res.2 then ["Merged into " ++ String.mk (outputName pfx)] else []),
       some res.1,
       !res.2⟩

/-! ### Concrete sample files (the scenario of the design document) -/

/-- Header row shared by the sample files. -/
def salesHdr : Row := ["id", "amt"]

/-- sales_2023.csv with rows 1,10 and 2,20. -/
def salesA : InputFile :=
  ⟨"sales_2023.csv".toList, some [["id", "amt"], ["1", "10"], ["2", "20"]]⟩

/-- sales_2022.csv with row 3,5. -/
def salesB : InputFile :=
  ⟨"sales_2022.csv".toList, some [["id", "amt"], ["3", "5"]]⟩

/-- A discovered file that tokenizes to zero rows: next(reader) raises. -/
def emptyFile : InputFile := ⟨"sales_2020.csv".toList, some []⟩

/-- A discovered file with a header row and no data rows. -/
def hdrOnly : InputFile := ⟨"sales_2021.csv".toList, some [["id", "amt"]]⟩

/-- A discovered file that cannot be opened. -/
def unreadableF : InputFile := ⟨"sales_2024.csv".toList, none⟩

/-- The output file of a previous merge run, as a directory entry. -/
def priorOutput : InputFile :=
  ⟨"sales.csv".toList, some [["id", "amt"], ["3", "5"], ["1", "10"], ["2", "20"]]⟩

/-! ### Basic facts about readability and the merge loop -/

theorem readable_iff {f : InputFile} :
    readable f = true ↔ ∃ h t, f.content = some (h :: t) := by
  rcases f with ⟨n, c⟩
  rcases c with _ | (_ | ⟨h, t⟩) <;> simp [readable]

theorem readable_eq_false_iff {f : InputFile} :
    readable f = false ↔ f.content = none ∨ f.content = some [] := by
  rcases f with ⟨n, c⟩
  rcases c with _ | (_ | ⟨h, t⟩) <;> simp [readable]

theorem mergeStep_flag (l : List InputFile) : ∀ (out : List Row) (hw : Bool),
    (mergeStep out hw l).2 = l.all readable := by
  induction l with
  | nil => intro out hw; rfl
  | cons f rest ih =>
    intro out hw
    rcases hc : f.content with _ | (_ | ⟨h, t⟩)
    · simp [mergeStep, hc, readable]
    · simp [mergeStep, hc, readable]
    · simp [mergeStep, hc, readable, ih]

theorem mergeStep_true (l : List InputFile) : ∀ out : List Row,
    l.all readable = true →
    mergeStep out true l = (out ++ (l.map dataRows).flatten, true) := by
  induction l with
  | nil => intro out _; simp [mergeStep]
  | cons f rest ih =>
    intro out hall
    simp only [List.all_cons, Bool.and_eq_true] at hall
    obtain ⟨hf, hrest⟩ := hall
    rcases hc : f.content with _ | (_ | ⟨h, t⟩)
    · simp [readable, hc] at hf
    · simp [readable, hc] at hf
    · simp [mergeStep, hc, ih _ hrest, dataRows, List.append_assoc]

theorem mergeFiles_eq (l : List InputFile) (hall : l.all readable = true) :
    mergeFiles l = (headerList l ++ (l.map dataRows).flatten, true) := by
  cases l with
  | nil => rfl
  | cons f rest =>
    simp only [List.all_cons, Bool.and_eq_true] at hall
    obtain ⟨hf, hrest⟩ := hall
    rcases hc : f.content with _ | (_ | ⟨h, t⟩)
    · simp [readable, hc] at hf
    · simp [readable, hc] at hf
    · show mergeStep [] false (f :: rest) = _
      simp [mergeStep, hc, mergeStep_true rest _ hrest, headerList, dataRows]

theorem mergeStep_fault (good : List InputFile) :
    ∀ (out : List Row) (hw : Bool) (bad : InputFile) (rest : List InputFile),
      good.all readable = true → readable bad = false →
      mergeStep out hw (good ++ bad :: rest) = ((mergeStep out hw good).1, false) := by
  induction good with
  | nil =>
    intro out hw bad rest _ hbad
    rcases hc : bad.content with _ | (_ | ⟨h, t⟩)
    · simp [mergeStep, hc]
    · simp [mergeStep, hc]
    · simp [readable, hc] at hbad
  | cons g good' ih =>
    intro out hw bad rest hall hbad
    simp only [List.all_cons, Bool.and_eq_true] at hall
    obtain ⟨hg, hgood'⟩ := hall
    rcases hc : g.content with _ | (_ | ⟨h, t⟩)
    · simp [readable, hc] at hg
    · simp [readable, hc] at hg
    · simp [mergeStep, hc, ih _ _ _ _ hgood' hbad]

theorem mergeStep_skip (l1 : List InputFile) :
    ∀ (out : List Row) (e : InputFile) (l2 : List InputFile) (h : Row),
      e.content = some [h] →
      mergeStep out true (l1 ++ e :: l2) = mergeStep out true (l1 ++ l2) := by
  induction l1 with
  | nil =>
    intro out e l2 h he
    simp [mergeStep, he]
  | cons f l1' ih =>
    intro out e l2 h he
    rcases hc : f.content with _ | (_ | ⟨hd, t⟩)
    · simp [mergeStep, hc]
    · simp [mergeStep, hc]
    · simp [mergeStep, hc, ih _ _ _ _ he]

/-! ### Facts about the sort -/

theorem sortFiles_perm (pfx : List Char) (files : List InputFile) :
    (sortFiles pfx files).Perm files :=
  List.perm_insertionSort _ files

theorem sortFiles_sorted (pfx : List Char) (files : List InputFile) :
    (sortFiles pfx files).Pairwise (fun a b => fileKey pfx a ≤ fileKey pfx b) := by
  haveI : IsTotal InputFile (fun a b => fileKey pfx a ≤ fileKey pfx b) :=
    ⟨fun a b => le_total _ _⟩
  haveI : IsTrans InputFile (fun a b => fileKey pfx a ≤ fileKey pfx b) :=
    ⟨fun a b c hab hbc => le_trans hab hbc⟩
  exact List.sorted_insertionSort _ files

theorem filter_orderedInsert {α : Type} (r : α → α → Prop) [DecidableRel r]
    (p : α → Bool) (a : α)
    (hp : p a = true → ∀ b, ¬ r a b → p b = false) :
    ∀ l : List α, (l.orderedInsert r a).filter p =
      if p a then a :: l.filter p else l.filter p := by
  intro l
  induction l with
  | nil => cases hpa : p a <;> simp [List.orderedInsert, List.filter, hpa]
  | cons b l ih =>
    by_cases hr : r a b
    · simp only [List.orderedInsert, if_pos hr]
      cases hpa : p a
      · simp [List.filter_cons, hpa]
      · simp [List.filter_cons, hpa]
    · simp only [List.orderedInsert, if_neg hr]
      cases hpa : p a
      · rw [List.filter_cons, List.filter_cons, ih]
        simp [hpa]
      · have hb := hp hpa b hr
        rw [List.filter_cons, List.filter_cons, ih]
        simp [hpa, hb]

theorem sortFiles_filter_key (pfx : List Char) (k : WithTop Nat)
    (files : List InputFile) :
    (sortFiles pfx files).filter (fun f => decide (fileKey pfx f = k))
      = files.filter (fun f => decide (fileKey pfx f = k)) := by
  unfold sortFiles
  induction files with
  | nil => rfl
  | cons f files ih =>
    have hp : (fun g => decide (fileKey pfx g = k)) f = true →
        ∀ b, ¬ (fun a b => fileKey pfx a ≤ fileKey pfx b) f b →
        (fun g => decide (fileKey pfx g = k)) b = false := by
      intro hpf b hrb
      have h1 : fileKey pfx f = k := of_decide_eq_true hpf
      have h2 : fileKey pfx b < fileKey pfx f := lt_of_not_le hrb
      rw [h1] at h2
      exact decide_eq_false (ne_of_lt h2)
    simp only [List.insertionSort]
    rw [filter_orderedInsert _ _ _ hp, ih, List.filter_cons]

theorem sorted_key_split {α : Type} {key : α → WithTop Nat} :
    ∀ {l : List α} {A B : α},
      l.Pairwise (fun a b => key a ≤ key b) → A ∈ l → B ∈ l → key A < key B →
      ∃ s1 s2 s3, l = s1 ++ A :: (s2 ++ B :: s3) := by
  intro l
  induction l with
  | nil => intro A B _ hA; exact absurd hA (List.not_mem_nil A)
  | cons x xs ih =>
    intro A B hs hA hB hlt
    rw [List.pairwise_cons] at hs
    obtain ⟨hx, hxs⟩ := hs
    rcases List.mem_cons.mp hA with rfl | hA2
    · rcases List.mem_cons.mp hB with rfl | hB2
      · exact absurd hlt (lt_irrefl _)
      · obtain ⟨t1, t2, ht⟩ := List.append_of_mem hB2
        exact ⟨[], t1, t2, by simp [ht]⟩
    · rcases List.mem_cons.mp hB with rfl | hB2
      · exact absurd hlt (not_lt.mpr (hx A hA2))
      · obtain ⟨s1, s2, s3, h⟩ := ih hxs hA2 hB2 hlt
        exact ⟨x :: s1, s2, s3, by rw [h]; rfl⟩

/-! ### Characterization of year extraction and glob matching -/

theorem extract_year_of_decomp (p mid : List Char) (d1 d2 d3 d4 : Char)
    (h1 : d1.isDigit = true) (h2 : d2.isDigit = true)
    (h3 : d3.isDigit = true) (h4 : d4.isDigit = true) :
    extract_year (p ++ mid ++ ['_', d1, d2, d3, d4, '.', 'c', 's', 'v']) p
      = ((digitVal d1 * 1000 + digitVal d2 * 100 + digitVal d3 * 10 +
          digitVal d4 : Nat) : WithTop Nat) := by
  have hassoc : p ++ mid ++ ['_', d1, d2, d3, d4, '.', 'c', 's', 'v']
      = p ++ (mid ++ ['_', d1, d2, d3, d4, '.', 'c', 's', 'v']) :=
    List.append_assoc p mid _
  rw [hassoc]
  unfold extract_year
  rw [if_pos (List.prefix_append p _), List.drop_left]
  have hys : yearSuffix? (mid ++ ['_', d1, d2, d3, d4, '.', 'c', 's', 'v'])
      = some (digitVal d1 * 1000 + digitVal d2 * 100 + digitVal d3 * 10 +
          digitVal d4) := by
    unfold yearSuffix?
    have hlen : (mid ++ ['_', d1, d2, d3, d4, '.', 'c', 's', 'v']).length - 9
        = mid.length := by simp
    rw [hlen, List.drop_left]
    simp [h1, h2, h3, h4]
  rw [hys]

theorem exists_decomp_of_ne_top (f p : List Char)
    (h : extract_year f p ≠ ⊤) :
    ∃ mid d1 d2 d3 d4,
      (d1.isDigit = true ∧ d2.isDigit = true ∧ d3.isDigit = true ∧
        d4.isDigit = true) ∧
      f = p ++ mid ++ ['_', d1, d2, d3, d4, '.', 'c', 's', 'v'] := by
  unfold extract_year at h
  by_cases hpre : p <+: f
  · rw [if_pos hpre] at h
    rcases hys : yearSuffix? (f.drop p.length) with _ | y
    · rw [hys] at h; simp at h
    · unfold yearSuffix? at hys
      split at hys
      next u d1 d2 d3 d4 dot c1 c2 c3 heq =>
        split at hys
        next hcond =>
          obtain ⟨hu, hdot, hc1, hc2, hc3, hd1, hd2, hd3, hd4⟩ := hcond
          subst hu; subst hdot; subst hc1; subst hc2; subst hc3
          refine ⟨(f.drop p.length).take ((f.drop p.length).length - 9),
            d1, d2, d3, d4, ⟨hd1, hd2, hd3, hd4⟩, ?_⟩
          have hf : p ++ f.drop p.length = f := List.prefix_iff_eq_append.mp hpre
          calc f = p ++ f.drop p.length := hf.symm
            _ = p ++ ((f.drop p.length).take ((f.drop p.length).length - 9) ++
                  (f.drop p.length).drop ((f.drop p.length).length - 9)) := by
                rw [List.take_append_drop]
            _ = p ++ ((f.drop p.length).take ((f.drop p.length).length - 9) ++
                  ['_', d1, d2, d3, d4, '.', 'c', 's', 'v']) := by rw [heq]
            _ = p ++ (f.drop p.length).take ((f.drop p.length).length - 9) ++
                  ['_', d1, d2, d3, d4, '.', 'c', 's', 'v'] :=
                (List.append_assoc _ _ _).symm
        next => exact absurd hys (by simp)
      next => exact absurd hys (by simp)
  · rw [if_neg hpre] at h
    exact absurd rfl h

theorem extract_year_eq_top_of_no_decomp (f p : List Char)
    (h : ¬ ∃ mid d1 d2 d3 d4,
      (d1.isDigit = true ∧ d2.isDigit = true ∧ d3.isDigit = true ∧
        d4.isDigit = true) ∧
      f = p ++ mid ++ ['_', d1, d2, d3, d4, '.', 'c', 's', 'v']) :
    extract_year f p = ⊤ := by
  by_contra hne
  exact h (exists_decomp_of_ne_top f p hne)

theorem matchesGlob_iff (pfx name : List Char) :
    matchesGlob pfx name = true ↔
      ∃ s, name = pfx ++ "_20".toList ++ s ++ ".csv".toList := by
  unfold matchesGlob
  simp only [Bool.and_eq_true, decide_eq_true_eq]
  constructor
  · rintro ⟨hpre, hsuf⟩
    obtain ⟨t, ht⟩ := hsuf
    have hlen : (pfx ++ "_20".toList).length = pfx.length + 3 := by simp
    have heq : (pfx ++ "_20".toList) ++ name.drop (pfx.length + 3) = name := by
      rw [← hlen]
      exact List.prefix_iff_eq_append.mp hpre
    refine ⟨t, ?_⟩
    rw [← heq, ← ht]
    simp [List.append_assoc]
  · rintro ⟨s, rfl⟩
    have hshape : pfx ++ "_20".toList ++ s ++ ".csv".toList
        = (pfx ++ "_20".toList) ++ (s ++ ".csv".toList) := by
      simp [List.append_assoc]
    constructor
    · exact ⟨s ++ ".csv".toList, hshape.symm⟩
    · have hdrop : (pfx ++ "_20".toList ++ s ++ ".csv".toList).drop
          (pfx.length + 3) = s ++ ".csv".toList := by
        rw [hshape]
        have hlen : (pfx ++ "_20".toList).length = pfx.length + 3 := by simp
        rw [← hlen, List.drop_left]
      rw [hdrop]
      exact ⟨s, rfl⟩

/-- Two directory listings with the same discovery result produce the same
run outcome. -/
theorem run_eq_of_discover_eq (argv : List String) (dirA dirB : List InputFile)
    (h : discover (argv.getD 1 "").toList dirA
      = discover (argv.getD 1 "").toList dirB) :
    run argv dirA = run argv dirB := by
  simp only [run, h]

/-! ### The claims -/

/-- C1: for every prefix and every non-empty list of discovered input files
that share an identical header and each contain at least a header row, the
merged output contains exactly one header row plus every input file's
data-row count. -/
theorem C1_merged_row_count (pfx : List Char) (files : List InputFile)
    (h : Row) (hne : files ≠ [])
    (hall : ∀ f ∈ files, ∃ t, f.content = some (h :: t)) :
    (mergeFiles (sortFiles pfx files)).1.length
      = 1 + (files.map (fun f => (dataRows f).length)).sum := by
  have hperm := sortFiles_perm pfx files
  have hallr : (sortFiles pfx files).all readable = true := by
    rw [List.all_eq_true]
    intro f hf
    obtain ⟨t, ht⟩ := hall f (hperm.mem_iff.mp hf)
    exact readable_iff.mpr ⟨h, t, ht⟩
  have hsne : sortFiles pfx files ≠ [] := by
    intro h0
    rw [h0] at hperm
    exact hne hperm.symm.eq_nil
  obtain ⟨f0, rest, hs⟩ := List.exists_cons_of_ne_nil hsne
  have hf0 : f0 ∈ sortFiles pfx files := by rw [hs]; exact List.mem_cons_self f0 rest
  obtain ⟨t0, ht0⟩ := hall f0 (hperm.mem_iff.mp hf0)
  have hhl : headerList (sortFiles pfx files) = [h] := by
    rw [hs]; simp [headerList, ht0]
  have hsum : ((sortFiles pfx files).map (fun f => (dataRows f).length)).sum
      = (files.map (fun f => (dataRows f).length)).sum :=
    (hperm.map (fun f => (dataRows f).length)).sum_eq
  rw [mergeFiles_eq _ hallr]
  simp only [List.length_append, List.length_flatten, List.map_map, hhl]
  simp only [Function.comp_def, hsum, List.length_cons, List.length_nil]

/-- C1 witness: the scenario of the design document, two files with the
same header; the output has 1 + (2 + 1) rows. -/
theorem C1_merged_row_count_witness :
    [salesA, salesB] ≠ ([] : List InputFile) ∧
    (mergeFiles (sortFiles "sales".toList [salesA, salesB])).1.length
      = 1 + ([salesA, salesB].map (fun f => (dataRows f).length)).sum := by
  refine ⟨by decide, C1_merged_row_count "sales".toList [salesA, salesB] salesHdr
    (by decide) ?_⟩
  intro f hf
  simp only [List.mem_cons, List.not_mem_nil, or_false] at hf
  rcases hf with rfl | rfl
  · exact ⟨[["1", "10"], ["2", "20"]], rfl⟩
  · exact ⟨[["3", "5"]], rfl⟩

/-- C2: for any two discovered input files A and B whose extracted years
satisfy yA < yB, all data rows of A precede all data rows of B in the
output, for every discovery order. -/
theorem C2_year_order (pfx : List Char) (files : List InputFile)
    (A B : InputFile) (hA : A ∈ files) (hB : B ∈ files)
    (hlt : extract_year A.name pfx < extract_year B.name pfx)
    (hread : ∀ f ∈ files, readable f = true) :
    ∃ l1 l2 l3, (mergeFiles (sortFiles pfx files)).1
      = l1 ++ dataRows A ++ (l2 ++ (dataRows B ++ l3)) := by
  have hperm := sortFiles_perm pfx files
  have hallr : (sortFiles pfx files).all readable = true := by
    rw [List.all_eq_true]
    exact fun f hf => hread f (hperm.mem_iff.mp hf)
  have hsorted := sortFiles_sorted pfx files
  have hAs : A ∈ sortFiles pfx files := hperm.mem_iff.mpr hA
  have hBs : B ∈ sortFiles pfx files := hperm.mem_iff.mpr hB
  obtain ⟨s1, s2, s3, hsplit⟩ := sorted_key_split hsorted hAs hBs hlt
  refine ⟨headerList (sortFiles pfx files) ++ (s1.map dataRows).flatten,
    (s2.map dataRows).flatten, (s3.map dataRows).flatten, ?_⟩
  rw [mergeFiles_eq _ hallr]
  show headerList (sortFiles pfx files) ++ ((sortFiles pfx files).map dataRows).flatten = _
  rw [hsplit]
  simp [List.append_assoc]

/-- C2 witness: with files discovered in the order 2023, 2022, the single
data row of the 2022 file precedes both data rows of the 2023 file. -/
theorem C2_year_order_witness :
    ∃ l1 l2 l3, (mergeFiles (sortFiles "sales".toList [salesA, salesB])).1
      = l1 ++ dataRows salesB ++ (l2 ++ (dataRows salesA ++ l3)) :=
  C2_year_order "sales".toList [salesA, salesB] salesB salesA
    (by decide) (by decide) (by decide) (by decide)

/-- C3: year extraction returns, for a filename of the form
prefix ++ anything ++ underscore ++ four digits ++ dot-csv, the value of the
four digits immediately before the extension (for every such decomposition,
so several four-digit groups are disambiguated toward the extension), and
for a filename admitting no such decomposition the sentinel `⊤`, which is
greater than every real year. -/
theorem C3_extract_year (f p : List Char) :
    (∀ mid d1 d2 d3 d4,
      d1.isDigit = true → d2.isDigit = true → d3.isDigit = true →
      d4.isDigit = true →
      f = p ++ mid ++ ['_', d1, d2, d3, d4, '.', 'c', 's', 'v'] →
      extract_year f p = ((digitVal d1 * 1000 + digitVal d2 * 100 +
        digitVal d3 * 10 + digitVal d4 : Nat) : WithTop Nat))
    ∧ ((¬ ∃ mid d1 d2 d3 d4,
        (d1.isDigit = true ∧ d2.isDigit = true ∧ d3.isDigit = true ∧
          d4.isDigit = true) ∧
        f = p ++ mid ++ ['_', d1, d2, d3, d4, '.', 'c', 's', 'v']) →
      extract_year f p = ⊤ ∧
        ∀ y : Nat, (y : WithTop Nat) < extract_year f p) := by
  constructor
  · intro mid d1 d2 d3 d4 h1 h2 h3 h4 hf
    rw [hf]
    exact extract_year_of_decomp p mid d1 d2 d3 d4 h1 h2 h3 h4
  · intro hno
    have htop := extract_year_eq_top_of_no_decomp f p hno
    exact ⟨htop, fun y => htop ▸ WithTop.coe_lt_top y⟩

/-- C3 witness: a name with a middle segment and two four-digit groups is
resolved to the group before the extension. -/
theorem C3_extract_year_witness :
    extract_year "sales_1999_2023.csv".toList "sales".toList
      = ((2023 : Nat) : WithTop Nat) := by
  have h := (C3_extract_year "sales_1999_2023.csv".toList "sales".toList).1
    "_1999".toList '2' '0' '2' '3' (by decide) (by decide) (by decide)
    (by decide) (by decide)
  have hv : digitVal '2' * 1000 + digitVal '0' * 100 + digitVal '2' * 10 +
      digitVal '3' = 2023 := by decide
  rw [hv] at h
  exact h

/-- C4: the output header equals the header row of whichever input sorts
first, it is written exactly once, and all subsequent headers are discarded
without validation: the output is the first header followed by data rows
only, the run succeeds, and replacing the later files by any readable files
with the same data rows (so with arbitrary other headers) leaves the
output unchanged. -/
theorem C4_header_fidelity (pfx : List Char) (files : List InputFile)
    (f0 : InputFile) (rest : List InputFile) (h : Row) (t : List Row)
    (hs : sortFiles pfx files = f0 :: rest)
    (h0 : f0.content = some (h :: t))
    (hread : ∀ f ∈ files, readable f = true) :
    mergeFiles (sortFiles pfx files)
      = (h :: ((sortFiles pfx files).map dataRows).flatten, true)
    ∧ ∀ rest2 : List InputFile, (∀ g ∈ rest2, readable g = true) →
        rest2.map dataRows = rest.map dataRows →
        mergeFiles (f0 :: rest2) = mergeFiles (f0 :: rest) := by
  have hperm := sortFiles_perm pfx files
  have hallr : (sortFiles pfx files).all readable = true := by
    rw [List.all_eq_true]
    exact fun f hf => hread f (hperm.mem_iff.mp hf)
  have hrest : rest.all readable = true := by
    rw [hs, List.all_cons, Bool.and_eq_true] at hallr
    exact hallr.2
  constructor
  · rw [mergeFiles_eq _ hallr]
    have hhl : headerList (sortFiles pfx files) = [h] := by
      rw [hs]; simp [headerList, h0]
    rw [hhl]
    rfl
  · intro rest2 hread2 hdata
    have hall2 : (f0 :: rest2).all readable = true := by
      rw [List.all_cons, Bool.and_eq_true]
      exact ⟨readable_iff.mpr ⟨h, t, h0⟩, List.all_eq_true.mpr hread2⟩
    have hall1 : (f0 :: rest).all readable = true := by
      rw [List.all_cons, Bool.and_eq_true]
      exact ⟨readable_iff.mpr ⟨h, t, h0⟩, hrest⟩
    rw [mergeFiles_eq _ hall2, mergeFiles_eq _ hall1]
    simp [headerList, h0, hdata]

/-- C4 witness: the sorted scenario files; the output carries the header of
the file that sorts first and the flag is true. -/
theorem C4_header_fidelity_witness :
    mergeFiles (sortFiles "sales".toList [salesA, salesB])
      = (salesHdr ::
          ((sortFiles "sales".toList [salesA, salesB]).map dataRows).flatten,
        true) :=
  (C4_header_fidelity "sales".toList [salesA, salesB] salesB [salesA]
    salesHdr [["3", "5"]] (by decide) rfl (by decide)).1

/-- C5: a wrong argument count yields the usage message on standard output
and exit code 1 with no output file; a discovery that finds no files yields
the no-matching-files message and exit code 1 with no output file. -/
theorem C5_cli_errors (argv : List String) (dir : List InputFile) :
    (argv.length ≠ 2 → run argv dir = ⟨1, [usageMsg], none, false⟩)
    ∧ (argv.length = 2 →
        discover (argv.getD 1 "").toList dir = [] →
        run argv dir = ⟨1, [noMatchMsg (argv.getD 1 "").toList], none, false⟩) := by
  constructor
  · intro h
    simp [run, h]
  · intro h2 hd
    rw [run, if_neg (by simp [h2])]
    have hd2 : discover (argv[1]?.getD "").data dir = [] := by
      simpa using hd
    simp [hd2]

/-- C5 witness: three arguments give the usage outcome; a prefix with no
matching files gives the no-match outcome; neither creates a file. -/
theorem C5_cli_errors_witness :
    run ["merge_csv.py", "sales", "extra"] [salesA]
      = ⟨1, [usageMsg], none, false⟩
    ∧ run ["merge_csv.py", "zz"] [salesA]
      = ⟨1, [noMatchMsg "zz".toList], none, false⟩ :=
  ⟨(C5_cli_errors ["merge_csv.py", "sales", "extra"] [salesA]).1 (by decide),
   (C5_cli_errors ["merge_csv.py", "zz"] [salesA]).2 rfl (by decide)⟩

/-- C6: the sort is ascending by extracted year; a file with no extractable
year never precedes one with an extractable year; and for every key value
the files holding it keep their discovery order (stability, covering both
equal years and the sentinel). -/
theorem C6_sort_stable (pfx : List Char) (files : List InputFile) :
    (sortFiles pfx files).Pairwise (fun a b => fileKey pfx a ≤ fileKey pfx b)
    ∧ (∀ s1 A s2 B s3, sortFiles pfx files = s1 ++ A :: (s2 ++ B :: s3) →
        fileKey pfx A = ⊤ → fileKey pfx B ≠ ⊤ → False)
    ∧ (∀ k : WithTop Nat,
        (sortFiles pfx files).filter (fun f => decide (fileKey pfx f = k))
          = files.filter (fun f => decide (fileKey pfx f = k))) := by
  refine ⟨sortFiles_sorted pfx files, ?_,
    fun k => sortFiles_filter_key pfx k files⟩
  intro s1 A s2 B s3 hsplit hAtop hBne
  have hpw := sortFiles_sorted pfx files
  rw [hsplit] at hpw
  have hsub : [A, B].Sublist (s1 ++ A :: (s2 ++ B :: s3)) := by
    have h1 : [B].Sublist (s2 ++ B :: s3) :=
      List.singleton_sublist.mpr (by simp)
    have h2 : [A, B].Sublist (A :: (s2 ++ B :: s3)) := h1.cons₂ A
    exact h2.trans (List.sublist_append_right _ _)
  have hAB : fileKey pfx A ≤ fileKey pfx B := by
    have := hpw.sublist hsub
    exact (List.pairwise_cons.mp this).1 B (by simp)
  rw [hAtop] at hAB
  exact hBne (top_le_iff.mp hAB)

/-- C6 witness: two files with no extractable year keep their discovery
order among themselves. -/
theorem C6_sort_stable_witness :
    (sortFiles "sales".toList [salesA, hdrOnly, unreadableF]).filter
        (fun f => decide (fileKey "sales".toList f = (2023 : Nat)))
      = [salesA, hdrOnly, unreadableF].filter
        (fun f => decide (fileKey "sales".toList f = (2023 : Nat))) :=
  (C6_sort_stable "sales".toList [salesA, hdrOnly, unreadableF]).2.2
    ((2023 : Nat) : WithTop Nat)

/-- C7: when a discovered input file cannot be opened or has no header row,
the merge faults; the loop stops at the first such file, writing nothing
from it or from the files after it, and the rows already written are kept
(no skip-and-continue, no rollback). -/
theorem C7_fault_propagation :
    (∀ (pfx : List Char) (files : List InputFile) (f : InputFile),
      f ∈ sortFiles pfx files → (f.content = none ∨ f.content = some []) →
      (mergeFiles (sortFiles pfx files)).2 = false)
    ∧ (∀ (good : List InputFile) (bad : InputFile) (rest : List InputFile),
        good.all readable = true → (bad.content = none ∨ bad.content = some []) →
        mergeFiles (good ++ bad :: rest) = ((mergeFiles good).1, false)) := by
  constructor
  · intro pfx files f hf hbad
    have hrf : readable f = false := readable_eq_false_iff.mpr hbad
    simp only [mergeFiles]
    rw [mergeStep_flag]
    cases hall : (sortFiles pfx files).all readable with
    | false => rfl
    | true =>
      have hft := List.all_eq_true.mp hall f hf
      rw [hrf] at hft
      exact absurd hft (by simp)
  · intro good bad rest hgood hbad
    exact mergeStep_fault good [] false bad rest hgood
      (readable_eq_false_iff.mpr hbad)

/-- C7 witness: an empty discovered file makes the sorted merge fault, and
placed after a good file it stops the loop with the good rows kept. -/
theorem C7_fault_propagation_witness :
    (mergeFiles (sortFiles "sales".toList [salesA, emptyFile])).2 = false
    ∧ mergeFiles ([salesB] ++ emptyFile :: [salesA])
      = ((mergeFiles [salesB]).1, false) :=
  ⟨C7_fault_propagation.1 "sales".toList [salesA, emptyFile] emptyFile
    (by decide) (Or.inr rfl),
   C7_fault_propagation.2 [salesB] emptyFile [salesA] (by decide) (Or.inr rfl)⟩

/-- C8: the output filename does not match the discovery pattern, in both
the executable and the declarative reading, so inserting the output of a
previous run anywhere into the directory listing leaves a rerun with the
same prefix unchanged: given otherwise unchanged inputs the second run
produces the identical outcome, including an identical output file. -/
theorem C8_no_reingestion (pfx : List Char) :
    matchesGlob pfx (outputName pfx) = false
    ∧ (¬ ∃ s, outputName pfx = pfx ++ "_20".toList ++ s ++ ".csv".toList)
    ∧ (∀ (prog : String) (d1 d2 : List InputFile) (g : InputFile),
        g.name = outputName pfx →
        run [prog, String.mk pfx] (d1 ++ g :: d2)
          = run [prog, String.mk pfx] (d1 ++ d2)) := by
  have hnod : ¬ ∃ s, outputName pfx
      = pfx ++ "_20".toList ++ s ++ ".csv".toList := by
    rintro ⟨s, hs⟩
    have hlen := congrArg List.length hs
    simp [outputName] at hlen
  have hmg : matchesGlob pfx (outputName pfx) = false := by
    cases hmgv : matchesGlob pfx (outputName pfx) with
    | false => rfl
    | true => exact absurd ((matchesGlob_iff pfx (outputName pfx)).mp hmgv) hnod
  refine ⟨hmg, hnod, ?_⟩
  intro prog d1 d2 g hg
  apply run_eq_of_discover_eq
  show discover pfx (d1 ++ g :: d2) = discover pfx (d1 ++ d2)
  unfold discover
  rw [List.filter_append, List.filter_append, List.filter_cons, hg, hmg]
  simp

/-- C8 witness: with the prior output file sales.csv present in the
directory, a rerun gives the identical outcome. -/
theorem C8_no_reingestion_witness :
    matchesGlob "sales".toList (outputName "sales".toList) = false
    ∧ run ["merge_csv.py", String.mk "sales".toList]
        ([salesA] ++ priorOutput :: [salesB])
      = run ["merge_csv.py", String.mk "sales".toList] ([salesA] ++ [salesB]) :=
  ⟨(C8_no_reingestion "sales".toList).1,
   (C8_no_reingestion "sales".toList).2.2 "merge_csv.py" [salesA] [salesB]
     priorOutput rfl⟩

/-- C9: a header-only input is not an error: it is readable and contributes
zero data rows; when it is not first, dropping it from the input list does
not change the merge result at all; and the merge flag is false exactly
when some input has no first row. -/
theorem C9_header_only :
    (∀ (e : InputFile) (h : Row), e.content = some [h] →
      readable e = true ∧ dataRows e = [])
    ∧ (∀ (l1 : List InputFile) (e : InputFile) (l2 : List InputFile) (h : Row),
        e.content = some [h] → l1 ≠ [] →
        mergeFiles (l1 ++ e :: l2) = mergeFiles (l1 ++ l2))
    ∧ (∀ files : List InputFile, (mergeFiles files).2 = files.all readable) := by
  refine ⟨?_, ?_, fun files => mergeStep_flag files [] false⟩
  · intro e h he
    exact ⟨readable_iff.mpr ⟨h, [], he⟩, by simp [dataRows, he]⟩
  · intro l1 e l2 h he hne
    obtain ⟨a, l1x, rfl⟩ := List.exists_cons_of_ne_nil hne
    show mergeStep [] false _ = mergeStep [] false _
    rcases hc : a.content with _ | (_ | ⟨hd, t⟩)
    · simp [mergeStep, hc]
    · simp [mergeStep, hc]
    · simp only [List.cons_append, mergeStep, hc, List.nil_append, if_neg]
      exact mergeStep_skip l1x _ e l2 h he

/-- C9 witness: a header-only 2021 file between the 2022 and 2023 files
leaves the merge result unchanged. -/
theorem C9_header_only_witness :
    mergeFiles ([salesB] ++ hdrOnly :: [salesA]) = mergeFiles ([salesB] ++ [salesA]) :=
  C9_header_only.2.1 [salesB] hdrOnly [salesA] ["id", "amt"] rfl (by decide)

/-- C10: whenever discovery finds at least one file, the output file is
opened for writing, so it ends holding exactly the merged rows; when the
first sorted input faults immediately, the output file exists with no rows
at all: its previous content is destroyed. -/
theorem C10_truncate_before_read (argv : List String) (dir : List InputFile)
    (h2 : argv.length = 2)
    (hne : discover (argv.getD 1 "").toList dir ≠ []) :
    (∃ rows, (run argv dir).outputFile = some rows)
    ∧ (∀ f0 rest,
        sortFiles (argv.getD 1 "").toList (discover (argv.getD 1 "").toList dir)
          = f0 :: rest →
        readable f0 = false →
        (run argv dir).outputFile = some []) := by
  have hrun : (run argv dir).outputFile
      = some (mergeFiles (sortFiles (argv.getD 1 "").toList
          (discover (argv.getD 1 "").toList dir))).1 := by
    have hne2 : (discover (argv[1]?.getD "").data dir).isEmpty = false := by
      rw [List.isEmpty_eq_false]
      simpa using hne
    rw [run, if_neg (by simp [h2])]
    simp [hne2]
  constructor
  · exact ⟨_, hrun⟩
  · intro f0 rest hs hbad
    rw [hrun, hs]
    rcases readable_eq_false_iff.mp hbad with hc | hc
    · simp [mergeFiles, mergeStep, hc]
    · simp [mergeFiles, mergeStep, hc]

/-- C10 witness: a single discovered file that cannot be opened still
leaves the output file present, truncated to no rows. -/
theorem C10_truncate_before_read_witness :
    (run ["merge_csv.py", "sales"] [unreadableF]).outputFile = some [] :=
  (C10_truncate_before_read ["merge_csv.py", "sales"] [unreadableF] rfl
    (by decide)).2 unreadableF [] (by decide) rfl

end Merger
